import Mathlib

/-!
Verification of the lesson-plan structural analyzer of `pdf_processor.py`
(`PDFProcessor`): text normalization (`_clean_text`), section location
(`_extract_sections`), the per-section extractors, the completeness scorer
(`_calculate_completeness_score`) and the orchestrator
(`analyze_lesson_plan_structure`).

Strings are modelled as `List Char`.  Python's `re` module is modelled by a
small backtracking matcher (`RE.runM`) covering exactly the constructs used by
the source's patterns: literals, character classes, `?` on a subexpression,
alternation, greedy `+`/`*` and lazy `+?` over one-character classes, a single
capture group, `(?:^|\n)` under `re.MULTILINE`, and the lookahead `(?=\n|$)`.
The result lists of `RE.runM` are ordered by Python's backtracking preference
(leftmost alternative first, greedy longest-first, lazy shortest-first), so the
head of the list is the match Python produces.  `\s` and `str.strip`/`split`
whitespace is modelled by the six ASCII whitespace characters, and `str.lower`
by the case table for ASCII plus the accented letters that occur in the
catalogs; this covers every character class exercised by the repository's
patterns and scenarios.
-/

namespace RIC

/-- Whitespace as used by Python's `\s`, `str.strip()` and `str.split()`
(restricted to ASCII whitespace, which is all the source's data uses). -/
def isSpaceChar (c : Char) : Bool :=
  c == ' ' || c == '\t' || c == '\n' || c == '\r' || c == '\x0b' || c == '\x0c'

/-- Case folding used for `text.lower()` and `re.IGNORECASE`: ASCII letters
plus the accented uppercase letters relevant to the Spanish catalogs. -/
def lowerChar (c : Char) : Char :=
  match c with
  | 'A' => 'a' | 'B' => 'b' | 'C' => 'c' | 'D' => 'd' | 'E' => 'e' | 'F' => 'f' | 'G' => 'g'
  | 'H' => 'h' | 'I' => 'i' | 'J' => 'j' | 'K' => 'k' | 'L' => 'l' | 'M' => 'm' | 'N' => 'n'
  | 'O' => 'o' | 'P' => 'p' | 'Q' => 'q' | 'R' => 'r' | 'S' => 's' | 'T' => 't' | 'U' => 'u'
  | 'V' => 'v' | 'W' => 'w' | 'X' => 'x' | 'Y' => 'y' | 'Z' => 'z'
  | 'Á' => 'á' | 'É' => 'é' | 'Í' => 'í' | 'Ó' => 'ó' | 'Ú' => 'ú' | 'Ñ' => 'ñ' | 'Ü' => 'ü'
  | c => c

/-- Uppercase counterpart, used by the model of Python's `str.title()`. -/
def upperChar (c : Char) : Char :=
  match c with
  | 'a' => 'A' | 'b' => 'B' | 'c' => 'C' | 'd' => 'D' | 'e' => 'E' | 'f' => 'F' | 'g' => 'G'
  | 'h' => 'H' | 'i' => 'I' | 'j' => 'J' | 'k' => 'K' | 'l' => 'L' | 'm' => 'M' | 'n' => 'N'
  | 'o' => 'O' | 'p' => 'P' | 'q' => 'Q' | 'r' => 'R' | 's' => 'S' | 't' => 'T' | 'u' => 'U'
  | 'v' => 'V' | 'w' => 'W' | 'x' => 'X' | 'y' => 'Y' | 'z' => 'Z'
  | 'á' => 'Á' | 'é' => 'É' | 'í' => 'Í' | 'ó' => 'Ó' | 'ú' => 'Ú' | 'ñ' => 'Ñ' | 'ü' => 'Ü'
  | c => c

/-- Letters (cased characters) for the `str.title()` model. -/
def isAlphaCh (c : Char) : Bool :=
  ('a' ≤ c && c ≤ 'z') || ('A' ≤ c && c ≤ 'Z') ||
  c == 'á' || c == 'é' || c == 'í' || c == 'ó' || c == 'ú' || c == 'ñ' || c == 'ü' ||
  c == 'Á' || c == 'É' || c == 'Í' || c == 'Ó' || c == 'Ú' || c == 'Ñ' || c == 'Ü'

/-- Model of `text.lower()`. -/
def lowerList (l : List Char) : List Char := l.map lowerChar

/-- Auxiliary for `titleChars`; the flag records whether the previous
character was a cased letter. -/
def titleAux : List Char → Bool → List Char
  | [], _ => []
  | c :: rest, prevAlpha =>
    (if isAlphaCh c then (if prevAlpha then lowerChar c else upperChar c) else c) ::
      titleAux rest (isAlphaCh c)

/-- Model of Python's `str.title()`: the first letter of each letter run is
uppercased, the rest lowercased. -/
def titleChars (l : List Char) : List Char := titleAux l false

/-- Auxiliary for `stripChars`: remove the trailing whitespace run.  The
result is always a prefix of the input. -/
def dropTrailing : List Char → List Char
  | [] => []
  | c :: rest =>
    let r := dropTrailing rest
    if r.isEmpty && isSpaceChar c then [] else c :: r

/-- Model of Python's `str.strip()` (no argument: strips whitespace). -/
def stripChars (l : List Char) : List Char :=
  dropTrailing (l.dropWhile isSpaceChar)

/-- Auxiliary for `collapseWs`; the flag records whether we are inside a
whitespace run whose single replacement space was already emitted. -/
def collapseWsAux : List Char → Bool → List Char
  | [], _ => []
  | c :: rest, inRun =>
    if isSpaceChar c then
      (if inRun then collapseWsAux rest true else ' ' :: collapseWsAux rest true)
    else c :: collapseWsAux rest false

/-- Model of `re.sub(r'\s+', ' ', text)`: every maximal whitespace run is
replaced by a single space. -/
def collapseWs (l : List Char) : List Char := collapseWsAux l false

/-- Auxiliary for `collapseNL`. -/
def collapseNLAux : List Char → Bool → List Char
  | [], _ => []
  | c :: rest, inRun =>
    if c == '\n' then
      (if inRun then collapseNLAux rest true else '\n' :: collapseNLAux rest true)
    else c :: collapseNLAux rest false

/-- Model of `re.sub(r'\n+', '\n', text)`. -/
def collapseNL (l : List Char) : List Char := collapseNLAux l false

/-- Leftmost match of the page-marker pattern `--- Página \d+ ---` at the head
of the input, returning the match length.  The greedy `\d+` must be followed
by a literal space, so it always consumes the entire digit run. -/
def matchMarker (s : List Char) : Option Nat :=
  if ("--- Página ").data.isPrefixOf s then
    let rest := s.drop 11
    let ds := rest.takeWhile Char.isDigit
    if ds.isEmpty then none
    else if (" ---").data.isPrefixOf (rest.drop ds.length) then
      some (11 + ds.length + 4)
    else none
  else none

/-- Auxiliary for `removeMarkers`: the counter is the number of remaining
characters of a previously recognized marker still to be deleted. -/
def rmAux : List Char → Nat → List Char
  | [], _ => []
  | _ :: rest, k + 1 => rmAux rest k
  | c :: rest, 0 =>
    match matchMarker (c :: rest) with
    | some L => rmAux rest (L - 1)
    | none => c :: rmAux rest 0

/-- Model of `re.sub(r'--- Página \d+ ---', '', text)`: non-overlapping
left-to-right removal of page markers (no rescan of the produced text). -/
def removeMarkers (l : List Char) : List Char := rmAux l 0

/-- `PDFProcessor._clean_text` (pdf_processor.py:145-152): collapse whitespace
runs, collapse newline runs, delete page markers, strip. -/
def clean_text (t : List Char) : List Char :=
  stripChars (removeMarkers (collapseNL (collapseWs t)))

/-- Model of Python's `needle in haystack` substring test. -/
def containsSub (p : List Char) : List Char → Bool
  | [] => p.isEmpty
  | c :: rest => p.isPrefixOf (c :: rest) || containsSub p rest

/-- Auxiliary for `countSub`; the counter skips over the remainder of an
already-counted occurrence (non-overlapping count, as `str.count`). -/
def countSubAux (p : List Char) : List Char → Nat → Nat
  | [], _ => 0
  | _ :: rest, k + 1 => countSubAux p rest k
  | c :: rest, 0 =>
    if p.isPrefixOf (c :: rest) then 1 + countSubAux p rest (p.length - 1)
    else countSubAux p rest 0

/-- Model of Python's `str.count` for a non-empty pattern. -/
def countSub (p : List Char) (s : List Char) : Nat := countSubAux p s 0

/-- Auxiliary for `countWords`; the flag records being inside a word. -/
def countWordsAux : List Char → Bool → Nat
  | [], _ => 0
  | c :: rest, inWord =>
    if isSpaceChar c then countWordsAux rest false
    else (if inWord then 0 else 1) + countWordsAux rest true

/-- Model of `len(text.split())`: the number of maximal non-whitespace runs. -/
def countWords (l : List Char) : Nat := countWordsAux l false

/-- Whether the list contains a page-marker substring anywhere. -/
def containsMarkerB : List Char → Bool
  | [] => (matchMarker []).isSome
  | c :: rest => (matchMarker (c :: rest)).isSome || containsMarkerB rest

/-- Whether the list contains two consecutive whitespace characters. -/
def hasDoubleWs : List Char → Bool
  | [] => false
  | [_] => false
  | a :: b :: rest => (isSpaceChar a && isSpaceChar b) || hasDoubleWs (b :: rest)

/-- Parse a digit string as Python's `int` does. -/
def parseNat (l : List Char) : Nat := l.foldl (fun a c => 10 * a + (c.toNat - 48)) 0

/-! ## The regex engine -/

/-- Abstract syntax of the regular-expression fragment used by
`pdf_processor.py`.  Quantifiers only ever range over one-character classes in
the source's patterns, so they are primitives over a class predicate. -/
inductive RE where
  | eps : RE
  | lit : Char → RE
  | cls : (Char → Bool) → RE
  | seq : RE → RE → RE
  | alt : RE → RE → RE
  | opt : RE → RE
  | plusCls : (Char → Bool) → RE
  | starCls : (Char → Bool) → RE
  | lazyPlusCls : (Char → Bool) → RE
  | grp : RE → RE
  | bol : RE
  | lookNLEnd : RE

/-- One way a regex can match a prefix of the input: the consumed characters,
the remaining input, and the capture of the (single) group if one matched. -/
structure MRes where
  consumed : List Char
  rest : List Char
  cap : Option (List Char)

/-- The character just before the remaining input: the last consumed
character, or the ambient previous character. -/
def lastOr (l : List Char) (d : Option Char) : Option Char :=
  match l.getLast? with
  | some c => some c
  | none => d

/-- Literal comparison; under `re.IGNORECASE` the (lowercase) pattern literal
is compared against the case-folded input character. -/
def charMatches (ci : Bool) (pc : Char) (c : Char) : Bool :=
  if ci then lowerChar c == pc else c == pc

/-- All ways `re` can match a prefix of `s`, in Python's backtracking
preference order (the head is the match Python picks).  `prev` is the
character preceding `s` in the overall subject (for `^` under
`re.MULTILINE`). -/
def RE.runM (ci : Bool) : RE → Option Char → List Char → List MRes
  | .eps, _, s => [⟨[], s, none⟩]
  | .lit _, _, [] => []
  | .lit pc, _, c :: rest => if charMatches ci pc c then [⟨[c], rest, none⟩] else []
  | .cls _, _, [] => []
  | .cls p, _, c :: rest => if p c then [⟨[c], rest, none⟩] else []
  | .seq a b, prev, s =>
    ((RE.runM ci a prev s).map (fun r =>
      (RE.runM ci b (lastOr r.consumed prev) r.rest).map (fun r2 =>
        (⟨r.consumed ++ r2.consumed, r2.rest,
          match r.cap with | some x => some x | none => r2.cap⟩ : MRes)))).flatten
  | .alt a b, prev, s => RE.runM ci a prev s ++ RE.runM ci b prev s
  | .opt a, prev, s => RE.runM ci a prev s ++ [⟨[], s, none⟩]
  | .plusCls p, _, s =>
    let n := (s.takeWhile p).length
    (List.range n).map (fun i => ⟨s.take (n - i), s.drop (n - i), none⟩)
  | .starCls p, _, s =>
    let n := (s.takeWhile p).length
    (List.range (n + 1)).map (fun i => ⟨s.take (n - i), s.drop (n - i), none⟩)
  | .lazyPlusCls p, _, s =>
    let n := (s.takeWhile p).length
    (List.range n).map (fun i => ⟨s.take (i + 1), s.drop (i + 1), none⟩)
  | .grp a, prev, s => (RE.runM ci a prev s).map (fun r => ⟨r.consumed, r.rest, some r.consumed⟩)
  | .bol, prev, s => if prev.isNone || prev == some '\n' then [⟨[], s, none⟩] else []
  | .lookNLEnd, _, [] => [⟨[], [], none⟩]
  | .lookNLEnd, _, c :: rest => if c == '\n' then [⟨[], c :: rest, none⟩] else []

/-- Model of `re.search`: scan start positions left to right, and at the first
position with a match return that position together with Python's preferred
match there. -/
def searchFrom (ci : Bool) (re : RE) : Option Char → List Char → Nat → Option (Nat × MRes)
  | prev, [], pos =>
    match RE.runM ci re prev [] with
    | m :: _ => some (pos, m)
    | [] => none
  | prev, c :: rest, pos =>
    match RE.runM ci re prev (c :: rest) with
    | m :: _ => some (pos, m)
    | [] => searchFrom ci re (some c) rest (pos + 1)

/-- Start position of the leftmost match, as used by `_extract_sections`. -/
def reSearchPos (ci : Bool) (re : RE) (s : List Char) : Option Nat :=
  (searchFrom ci re none s 0).map Prod.fst

/-- Auxiliary for `findall`, with fuel (`s.length + 1` always suffices since
every scan step advances at least one character). -/
def findallFuel (ci : Bool) (re : RE) : Nat → Option Char → List Char → List (List Char)
  | 0, _, _ => []
  | fuel + 1, prev, s =>
    match searchFrom ci re prev s 0 with
    | none => []
    | some (pos, m) =>
      let adv := pos + m.consumed.length
      let adv := if m.consumed.isEmpty then adv + 1 else adv
      (match m.cap with | some g => g | none => m.consumed) ::
        findallFuel ci re fuel (lastOr (s.take adv) prev) (s.drop adv)

/-- Model of `re.findall`: non-overlapping leftmost matches, returning for
each match the group capture when the pattern has a group, else the whole
match (Python's one-group `findall` convention). -/
def findall (ci : Bool) (re : RE) (s : List Char) : List (List Char) :=
  findallFuel ci re (s.length + 1) none s

/-- Syntactic test ensuring a regex never inspects the preceding character
(`bol` is the only construct that does); all section-heading patterns satisfy
it. -/
def RE.noAnchor : RE → Bool
  | .seq a b => a.noAnchor && b.noAnchor
  | .alt a b => a.noAnchor && b.noAnchor
  | .opt a => a.noAnchor
  | .grp a => a.noAnchor
  | .bol => false
  | _ => true

/-- The literal a regex must consume first, when it syntactically starts with
one; every section-heading pattern starts with a letter literal. -/
def startsWithLit : RE → Option Char
  | .seq a _ => startsWithLit a
  | .grp a => startsWithLit a
  | .lit c => some c
  | _ => none

/-! ## Pattern transcription helpers -/

/-- Sequence of a list of regexes. -/
def rseq : List RE → RE
  | [] => .eps
  | [r] => r
  | r :: rest => .seq r (rseq rest)

/-- Literal string regex. -/
def rstr (s : String) : RE := rseq (s.data.map RE.lit)

/-- Alternation of a list of regexes, tried left to right. -/
def ralt : List RE → RE
  | [] => .eps
  | [r] => r
  | r :: rest => .alt r (ralt rest)

/-- Regex `\s+`. -/
def wsPlus : RE := .plusCls isSpaceChar

/-- Regex `\s*`. -/
def wsStar : RE := .starCls isSpaceChar

/-- Regex `s?`: an optional trailing letter s. -/
def optS : RE := .opt (.lit 's')

/-- Regex `(?:^|\n)` under `re.MULTILINE`. -/
def bolOrNL : RE := .alt .bol (.lit '\n')

/-- Regex `[\d\-\*•]`. -/
def clsBullet : RE := .cls (fun c => c.isDigit || c == '-' || c == '*' || c == '•')

/-- Regex `(.+?)` (the dot does not match a newline). -/
def dotPlusLazyGrp : RE := .grp (.lazyPlusCls (fun c => c != '\n'))

/-! ## The section-pattern catalog (pdf_processor.py:12-52) -/

/-- Heading patterns for `objetivos`. -/
def patObjetivos : List RE :=
  [ rseq [rstr "objetivo", optS, wsPlus, .opt (rseq [rstr "de", wsPlus]),
      ralt [rstr "aprendizaje", .seq (rstr "específico") optS, .seq (rstr "generale") optS]],
    rseq [rstr "propósito", optS, wsPlus,
      .opt (rseq [rstr "de", wsPlus, rstr "la", wsPlus]), ralt [rstr "clase", rstr "lección"]],
    rseq [rstr "meta", optS, wsPlus, .opt (rseq [rstr "de", wsPlus]), rstr "aprendizaje"],
    rseq [rstr "qué", wsPlus, rstr "aprenderán"],
    rseq [rstr "logro", optS, wsPlus, rstr "esperado", optS] ]

/-- Heading patterns for `contenidos`. -/
def patContenidos : List RE :=
  [ rseq [rstr "contenido", optS, wsPlus,
      .opt (ralt [.seq (rstr "temático") optS, .seq (rstr "curriculare") optS])],
    rseq [rstr "tema", optS, wsPlus, .opt (rseq [rstr "a", wsPlus]),
      ralt [rstr "desarrollar", rstr "tratar"]],
    rseq [rstr "materia", optS, wsPlus, .opt (rseq [rstr "de", wsPlus, rstr "estudio"])],
    rseq [rstr "concepto", optS, wsPlus, ralt [rstr "clave", .seq (rstr "principale") optS]] ]

/-- Heading patterns for `actividades`. -/
def patActividades : List RE :=
  [ rseq [rstr "actividade", optS, wsPlus, .opt (rseq [rstr "de", wsPlus]),
      .opt (ralt [rstr "aprendizaje", rstr "enseñanza"])],
    rseq [rstr "estrategia", optS, wsPlus,
      ralt [.seq (rstr "didáctica") optS, .seq (rstr "metodológica") optS]],
    rseq [rstr "desarrollo", wsPlus, .opt (rseq [rstr "de", wsPlus, rstr "la", wsPlus]),
      rstr "clase"],
    rseq [rstr "secuencia", wsPlus, rstr "didáctica"],
    rstr "metodología" ]

/-- Heading patterns for `evaluacion`. -/
def patEvaluacion : List RE :=
  [ rseq [rstr "evaluación", wsPlus, .opt (rseq [rstr "de", wsPlus]),
      .opt (.seq (rstr "aprendizaje") optS)],
    rstr "assessment",
    rseq [rstr "criterio", optS, wsPlus, rstr "de", wsPlus, rstr "evaluación"],
    rseq [rstr "instrumento", optS, wsPlus, rstr "de", wsPlus, rstr "evaluación"],
    .seq (rstr "rúbrica") optS ]

/-- Heading patterns for `recursos`. -/
def patRecursos : List RE :=
  [ rseq [rstr "recurso", optS, wsPlus,
      .opt (ralt [.seq (rstr "didáctico") optS, .seq (rstr "educativo") optS])],
    rseq [rstr "materiale", optS, wsPlus,
      .opt (ralt [.seq (rstr "educativo") optS, rseq [rstr "de", wsPlus, rstr "apoyo"]])],
    .seq (rstr "herramienta") optS,
    rseq [rstr "tecnología", wsPlus, rstr "educativa"] ]

/-- Heading patterns for `tiempo`. -/
def patTiempo : List RE :=
  [ rseq [rstr "tiempo", wsPlus, ralt [rstr "estimado", rstr "asignado"]],
    rseq [rstr "duración", wsPlus, .opt (rseq [rstr "de", wsPlus, rstr "la", wsPlus]),
      ralt [rstr "clase", rstr "actividad"]],
    rstr "cronograma",
    rseq [rstr "distribución", wsPlus, rstr "del", wsPlus, rstr "tiempo"] ]

/-- `PDFProcessor.section_patterns` (pdf_processor.py:12-52), in the source's
dict insertion order. -/
def sectionPatterns : List (String × List RE) :=
  [ ("objetivos", patObjetivos), ("contenidos", patContenidos),
    ("actividades", patActividades), ("evaluacion", patEvaluacion),
    ("recursos", patRecursos), ("tiempo", patTiempo) ]

/-! ## Section location (pdf_processor.py:154-187) -/

/-- The inner pattern loop of `_extract_sections`: try patterns in order and
stop at the first one with a match anywhere, keeping its start offset. -/
def tryPatternsStart : List RE → List Char → Option Nat
  | [], _ => none
  | p :: rest, tl =>
    match reSearchPos false p tl with
    | some k => some k
    | none => tryPatternsStart rest tl

/-- The candidate next-section positions of `_extract_sections`: for every
pattern of every other category, the first match in `text_lower[start+50:]`,
shifted back to an absolute position. -/
def nextSections (name : String) (tl : List Char) (start : Nat) : List Nat :=
  ((sectionPatterns.map (fun op =>
    if op.1 == name then []
    else op.2.filterMap (fun p =>
      (reSearchPos false p (tl.drop (start + 50))).map (fun k => start + 50 + k)))).flatten)

/-- Minimum of a list of naturals, as Python's `min` on a non-empty list. -/
def minList? : List Nat → Option Nat
  | [] => none
  | x :: rest =>
    some (match minList? rest with
          | none => x
          | some m => min x m)

/-- Python slice `l[a:b]`. -/
def sliceList (l : List Char) (a b : Nat) : List Char := (l.drop a).take (b - a)

/-- `PDFProcessor._extract_sections` (pdf_processor.py:154-187): per category
in catalog order, first-matching pattern gives the span start; the span ends
at the nearest other-category match at or after `start + 50` (end of text if
none); the span is sliced from the original text, stripped, and recorded
(truncated to 1000 characters) when non-empty. -/
def extract_sections (text : List Char) : List (String × List Char) :=
  sectionPatterns.filterMap (fun np =>
    match tryPatternsStart np.2 (lowerList text) with
    | none => none
    | some start =>
      if (stripChars (sliceList text start
          ((minList? (nextSections np.1 (lowerList text) start)).getD text.length))).isEmpty
      then none
      else some (np.1, (stripChars (sliceList text start
          ((minList? (nextSections np.1 (lowerList text) start)).getD text.length))).take 1000))

/-- Association-list lookup modelling Python dict access (keys produced by
`extract_sections` are unique). -/
def lookupSec : List (String × List Char) → String → Option (List Char)
  | [], _ => none
  | (k, v) :: rest, n => if k == n then some v else lookupSec rest n

/-- Model of `sections.get(name, '')`. -/
def lookupD (l : List (String × List Char)) (n : String) : List Char :=
  (lookupSec l n).getD []

/-! ## Grade-level detection (pdf_processor.py:54-61, 189-200) -/

/-- `PDFProcessor.grade_indicators` (pdf_processor.py:54-61). -/
def grade_indicators : List (String × List String) :=
  [ ("preescolar", ["preescolar", "jardín", "kinder", "inicial"]),
    ("primaria_baja", ["1°", "2°", "3°", "primero", "segundo", "tercero", "grado"]),
    ("primaria_alta", ["4°", "5°", "6°", "cuarto", "quinto", "sexto"]),
    ("secundaria", ["7°", "8°", "9°", "séptimo", "octavo", "noveno", "secundaria"]),
    ("bachillerato", ["10°", "11°", "12°", "décimo", "once", "doce", "bachillerato", "preparatoria"]) ]

/-- `PDFProcessor._detect_grade_level` (pdf_processor.py:189-200): a level is
reported when any of its indicator tokens occurs in the lowercased text
(first indicator wins, one entry per level). -/
def detect_grade_level (t : List Char) : List String :=
  let tl := lowerList t
  grade_indicators.filterMap (fun li =>
    if li.2.any (fun i => containsSub i.data tl) then some li.1 else none)

/-! ## Per-section extractors (pdf_processor.py:202-314) -/

/-- The three patterns of `_extract_learning_objectives`
(pdf_processor.py:210-214). -/
def objectivePatterns : List RE :=
  [ rseq [bolOrNL, wsStar, clsBullet, wsStar, dotPlusLazyGrp, .lookNLEnd],
    rseq [bolOrNL, wsStar,
      ralt [rstr "que", rstr "el estudiante", .seq (rstr "los estudiante") optS],
      wsPlus, dotPlusLazyGrp, .lookNLEnd],
    rseq [bolOrNL, wsStar,
      ralt [rstr "identificar", rstr "reconocer", rstr "comprender",
        rstr "analizar", rstr "aplicar", rstr "evaluar"],
      wsPlus, dotPlusLazyGrp, .lookNLEnd] ]

/-- `PDFProcessor._extract_learning_objectives` (pdf_processor.py:202-220):
per pattern, all stripped matches longer than 10 characters; at most 5. -/
def extract_learning_objectives (t : List Char) : List (List Char) :=
  if t.isEmpty then []
  else
    (((objectivePatterns.map (fun p =>
      ((findall true p t).map stripChars).filter (fun m => 10 < m.length))).flatten).take 5)

/-- The four heuristics of `_count_activities` (pdf_processor.py:228-233). -/
def activityPatterns : List RE :=
  [ rseq [bolOrNL, wsStar, clsBullet, wsStar,
      ralt [rstr "actividad", rstr "ejercicio", rstr "tarea"]],
    rseq [ralt [rstr "primera", rstr "segunda", rstr "tercera", rstr "cuarta", rstr "quinta"],
      wsPlus, ralt [rstr "actividad", rstr "fase"]],
    rseq [ralt [rstr "inicio", rstr "desarrollo", rstr "cierre"], wsStar, .lit ':'],
    rseq [bolOrNL, wsStar, ralt [rstr "paso", rstr "etapa"], wsPlus, .plusCls Char.isDigit] ]

/-- `PDFProcessor._count_activities` (pdf_processor.py:222-240): sum of match
counts over the four heuristics; floor of 1 when the text is non-blank;
0 on empty or blank input. -/
def count_activities (t : List Char) : Nat :=
  if t.isEmpty then 0
  else
    let total := (activityPatterns.map (fun p => (findall true p t).length)).sum
    if (stripChars t).isEmpty then 0 else max total 1

/-- `PDFProcessor._extract_assessment_methods` keyword list
(pdf_processor.py:249-253). -/
def assessment_keywords : List String :=
  [ "observación", "rúbrica", "lista de cotejo", "portafolio",
    "examen", "prueba", "quiz", "proyecto", "presentación",
    "autoevaluación", "coevaluación", "heteroevaluación" ]

/-- `PDFProcessor._extract_assessment_methods` (pdf_processor.py:242-260):
substring membership of each keyword in the lowercased section text, the hits
title-cased, in keyword-list order. -/
def extract_assessment_methods (t : List Char) : List (List Char) :=
  if t.isEmpty then []
  else
    let tl := lowerList t
    assessment_keywords.filterMap (fun k =>
      if containsSub k.data tl then some (titleChars k.data) else none)

/-- The two patterns of `_extract_resources` (pdf_processor.py:270-273). -/
def resourcePatterns : List RE :=
  [ rseq [bolOrNL, wsStar, clsBullet, wsStar, dotPlusLazyGrp, .lookNLEnd],
    rseq [ralt [rstr "libro", rstr "texto", rstr "material", rstr "recurso", rstr "herramienta"],
      wsStar, .opt (.lit ':'), wsStar, dotPlusLazyGrp, .lookNLEnd] ]

/-- `PDFProcessor._extract_resources` (pdf_processor.py:262-279): per pattern,
all stripped matches longer than 3 characters; at most 10. -/
def extract_resources (t : List Char) : List (List Char) :=
  if t.isEmpty then []
  else
    (((resourcePatterns.map (fun p =>
      ((findall true p t).map stripChars).filter (fun m => 3 < m.length))).flatten).take 10)

/-- The time-allocation summary (the source's dict also carries a
`time_distribution` entry that is always the constant empty dict; it is
omitted here). -/
structure TimeInfo where
  total_minutes : Nat
  activities_with_time : Nat
deriving Repr, DecidableEq

/-- The three time patterns of `_extract_time_info` (pdf_processor.py:293-297)
with their minute multipliers: the source multiplies by 60 exactly when the
pattern string contains `hora` or `hr`, i.e. for the second and third. -/
def timePatterns : List (RE × Nat) :=
  [ (rseq [.grp (.plusCls Char.isDigit), wsStar,
      ralt [.seq (rstr "minuto") optS, .seq (rstr "min") (.opt (.lit '.'))]], 1),
    (rseq [.grp (.plusCls Char.isDigit), wsStar,
      ralt [.seq (rstr "hora") optS, .seq (rstr "hr") (.opt (.lit '.'))]], 60),
    (rseq [.grp (.plusCls Char.isDigit), wsStar,
      .seq (rstr "hr") (.seq optS (.opt (.lit '.')))], 60) ]

/-- `PDFProcessor._extract_time_info` (pdf_processor.py:281-314): each matched
quantity contributes multiplier × value minutes and one time-tagged
activity. -/
def extract_time_info (t : List Char) : TimeInfo :=
  if t.isEmpty then ⟨0, 0⟩
  else
    let res := timePatterns.foldl (fun (acc : Nat × Nat) pm =>
      let ms := findall true pm.1 t
      (acc.1 + (ms.map (fun m => pm.2 * parseNat m)).sum, acc.2 + ms.length)) (0, 0)
    ⟨res.1, res.2⟩

/-! ## Completeness score (pdf_processor.py:316-328) -/

/-- The essential categories of `_calculate_completeness_score`. -/
def essentialSections : List String := ["objetivos", "contenidos", "actividades"]

/-- The recommended categories of `_calculate_completeness_score`. -/
def recommendedSections : List String := ["evaluacion", "recursos", "tiempo"]

/-- The source's test `section in sections and sections[section].strip()`. -/
def presentNonblank (sections : List (String × List Char)) (cat : String) : Bool :=
  match lookupSec sections cat with
  | some v => !(stripChars v).isEmpty
  | none => false

/-- `PDFProcessor._calculate_completeness_score` (pdf_processor.py:316-328).
The source computes `int((e/3)*70 + (r/3)*30)` in IEEE doubles; for every
reachable pair `e, r ∈ {0,1,2,3}` that float computation yields exactly
`(70*e + 30*r) / 3` in integer division (the products `(1/3)*30` and
`(2/3)*30` round to exactly `10.0` and `20.0`, and every other case is a
truncation far from an integer boundary), which is the formula used here. -/
def calculate_completeness_score (sections : List (String × List Char)) : Nat :=
  let e := essentialSections.countP (fun c => presentNonblank sections c)
  let r := recommendedSections.countP (fun c => presentNonblank sections c)
  (70 * e + 30 * r) / 3

/-! ## Orchestrator (pdf_processor.py:102-143, 330-344) -/

/-- The aggregate result of `analyze_lesson_plan_structure`. -/
structure StructureAnalysis where
  total_words : Nat
  total_pages : Nat
  sections_found : List String
  sections_content : List (String × List Char)
  grade_level_indicators : List String
  learning_objectives : List (List Char)
  activities_count : Nat
  assessment_methods : List (List Char)
  resources_list : List (List Char)
  time_allocation : TimeInfo
  completeness_score : Nat
deriving Repr, DecidableEq

/-- `PDFProcessor._get_basic_structure_analysis` (pdf_processor.py:330-344):
the all-zero/empty fallback result. -/
def basicStructureAnalysis : StructureAnalysis :=
  { total_words := 0, total_pages := 0, sections_found := [], sections_content := [],
    grade_level_indicators := [], learning_objectives := [], activities_count := 0,
    assessment_methods := [], resources_list := [], time_allocation := ⟨0, 0⟩,
    completeness_score := 0 }

/-- The body of the `try` block of `analyze_lesson_plan_structure`
(pdf_processor.py:112-139).  Note the source feeds the *concatenation* of the
`tiempo` and `actividades` spans to `_extract_time_info` (line 132). -/
def analyzeBody (text : List Char) : StructureAnalysis :=
  let cleaned := clean_text text
  let sections := extract_sections cleaned
  { total_words := countWords cleaned,
    total_pages := countSub ("--- Página").data text,
    sections_found := sections.map Prod.fst,
    sections_content := sections,
    grade_level_indicators := detect_grade_level cleaned,
    learning_objectives := extract_learning_objectives (lookupD sections "objetivos"),
    activities_count := count_activities (lookupD sections "actividades"),
    assessment_methods := extract_assessment_methods (lookupD sections "evaluacion"),
    resources_list := extract_resources (lookupD sections "recursos"),
    time_allocation :=
      extract_time_info (lookupD sections "tiempo" ++ lookupD sections "actividades"),
    completeness_score := calculate_completeness_score sections }

/-- The `try`/`except` harness of `analyze_lesson_plan_structure`
(pdf_processor.py:112, 141-143): a raising body degrades to the basic
result.  Python exceptions are modelled by `Except`. -/
def analyzeOrBasic : Except String StructureAnalysis → StructureAnalysis
  | .ok r => r
  | .error _ => basicStructureAnalysis

/-- `PDFProcessor.analyze_lesson_plan_structure` (pdf_processor.py:102-143).
Every embedded step is a total function, so the body never raises and the
orchestrator is the body behind the exception harness. -/
def analyze_lesson_plan_structure (text : List Char) : StructureAnalysis :=
  analyzeOrBasic (Except.ok (analyzeBody text))

/-! ## Spec-level reformulations used by the claims -/

/-- Scan the positions `a, a+1, ..., a+n-1` in order and return the first one
satisfying `P`. -/
def leastFrom (P : Nat → Bool) : Nat → Nat → Option Nat
  | _, 0 => none
  | a, n + 1 => if P a then some a else leastFrom P (a + 1) n

/-- Position of the leftmost match of `re` in `s`.  Match attempts ignore the
preceding character, which coincides with `re.search` for the anchor-free
section-heading patterns. -/
def firstMatchIdx (ci : Bool) (re : RE) (s : List Char) : Option Nat :=
  leastFrom (fun i => !(RE.runM ci re none (s.drop i)).isEmpty) 0 (s.length + 1)

/-- Whether some heading pattern of a category other than `name` matches at
position `p` of the lowercased text. -/
def otherCategoryMatchAt (name : String) (tl : List Char) (p : Nat) : Bool :=
  sectionPatterns.any (fun op =>
    (op.1 != name) && op.2.any (fun re => !(RE.runM false re none (tl.drop p)).isEmpty))

/-- Claim C2 as written: the span starts at the leftmost match of the first
category pattern that matches anywhere; it ends at the smallest position at or
after `start + 50` where another category's pattern matches (end of text if
none); the span is sliced from the original text and truncated to 1000
characters — with no whitespace stripping, which is where the claim deviates
from the source. -/
def claimSectionSpan (text : List Char) (name : String) (pats : List RE) : Option (List Char) :=
  (pats.findSome? (fun p => firstMatchIdx false p (lowerList text))).map (fun start =>
    (sliceList text start
      ((leastFrom (fun q => otherCategoryMatchAt name (lowerList text) q) (start + 50)
        (text.length + 1 - (start + 50))).getD text.length)).take 1000)

/-- Claim C2 amended: identical to `claimSectionSpan` except that the sliced
span is stripped of leading/trailing whitespace before truncation, as the
source does. -/
def specSectionSpan (text : List Char) (name : String) (pats : List RE) : Option (List Char) :=
  (pats.findSome? (fun p => firstMatchIdx false p (lowerList text))).map (fun start =>
    (stripChars (sliceList text start
      ((leastFrom (fun q => otherCategoryMatchAt name (lowerList text) q) (start + 50)
        (text.length + 1 - (start + 50))).getD text.length))).take 1000)

/-- The exact input of the spec's Scenario A. -/
def scenarioA : List Char :=
  ("Objetivos: 1. Identificar las partes de una célula. Actividades: Inicio: presentación (10 minutos). Desarrollo: trabajo en equipo (20 minutos).").data

/-- The exact input of the spec's Scenario C. -/
def scenarioC : List Char := ("Evaluación: rúbrica y lista de cotejo").data

/-- Input whose `actividades` span ends right before the `cronograma` heading
at position 51, so the slice `text[0:51]` ends in a space: it distinguishes
the source's stripped span from claim C2's unstripped slice. -/
def bufferProbe : List Char :=
  ("metodología aaaaaaaaaaaaaaaaaaaaaaaaaaaaaaaaaaaaaa cronograma").data

/-- Input whose `actividades` span contains a time expression while no
`tiempo` section exists: it separates the source's time-extractor input
(`tiempo` span + `actividades` span) from claim C9's (`tiempo` span only). -/
def timeProbe : List Char := ("metodología 10 minutos").data

/-- Input containing a page marker surrounded by single spaces: its removal
leaves two consecutive spaces in the normalizer output. -/
def markerProbe : List Char := ("a --- Página 1 --- b").data

/-! ## Claim theorems: concrete scenarios -/

set_option maxRecDepth 40000

/-- C4, counterexample: on the exact Scenario A input the analyzer finds no
`objetivos` and no `actividades` section, and the time allocation is not
30 minutes over 2 activities — the heading patterns all require whitespace
followed by a qualifier keyword after the heading word, which `Objetivos:`
and `Actividades:` do not provide. -/
theorem c4_scenarioA_counterexample :
    ("objetivos" ∉ (analyze_lesson_plan_structure scenarioA).sections_found) ∧
    ("actividades" ∉ (analyze_lesson_plan_structure scenarioA).sections_found) ∧
    (analyze_lesson_plan_structure scenarioA).time_allocation.total_minutes ≠ 30 ∧
    (analyze_lesson_plan_structure scenarioA).time_allocation.activities_with_time ≠ 2 := by
  decide

/-- C4, amended: on the exact Scenario A input the analyzer finds no sections
at all, extracts no learning objectives, and reports a zero time allocation. -/
theorem c4_scenarioA_amended :
    (analyze_lesson_plan_structure scenarioA).sections_found = [] ∧
    (analyze_lesson_plan_structure scenarioA).learning_objectives = [] ∧
    (analyze_lesson_plan_structure scenarioA).time_allocation = ⟨0, 0⟩ := by
  decide

/-- C5: the orchestrator's exception harness maps every raising run of the
body to the basic all-zero/empty result, the orchestrator is exactly the
harness applied to the (total) body, and the basic result has all-zero/empty
fields. -/
theorem c5_fail_soft :
    (∀ e : String, analyzeOrBasic (Except.error e) = basicStructureAnalysis) ∧
    (∀ text : List Char,
      analyze_lesson_plan_structure text = analyzeOrBasic (Except.ok (analyzeBody text))) ∧
    basicStructureAnalysis.total_words = 0 ∧
    basicStructureAnalysis.total_pages = 0 ∧
    basicStructureAnalysis.sections_found = [] ∧
    basicStructureAnalysis.sections_content = [] ∧
    basicStructureAnalysis.grade_level_indicators = [] ∧
    basicStructureAnalysis.learning_objectives = [] ∧
    basicStructureAnalysis.activities_count = 0 ∧
    basicStructureAnalysis.assessment_methods = [] ∧
    basicStructureAnalysis.resources_list = [] ∧
    basicStructureAnalysis.time_allocation = ⟨0, 0⟩ ∧
    basicStructureAnalysis.completeness_score = 0 :=
  ⟨fun _ => rfl, fun _ => rfl, rfl, rfl, rfl, rfl, rfl, rfl, rfl, rfl, rfl, rfl, rfl⟩

/-- C6: every per-section extractor returns its documented empty/zero value on
the empty string. -/
theorem c6_extractors_total_empty :
    extract_learning_objectives [] = [] ∧
    count_activities [] = 0 ∧
    extract_assessment_methods [] = [] ∧
    extract_resources [] = [] ∧
    extract_time_info [] = ⟨0, 0⟩ :=
  ⟨rfl, rfl, rfl, rfl, rfl⟩

/-- C7: on the Scenario C input the analyzer reports exactly the title-cased
assessment methods `Rúbrica` and `Lista De Cotejo` in keyword-list order, and
a completeness score of 10. -/
theorem c7_scenarioC :
    (analyze_lesson_plan_structure scenarioC).assessment_methods =
      [("Rúbrica").data, ("Lista De Cotejo").data] ∧
    (analyze_lesson_plan_structure scenarioC).completeness_score = 10 := by
  decide

/-- C8, counterexample: the single-space input is non-empty and none of the
four heuristics matches, yet the counter returns 0, not the claimed floor of
1 — the source's floor condition is `activities_text.strip()`, i.e.
non-blank, not non-empty. -/
theorem c8_count_activities_counterexample :
    ([' '] : List Char) ≠ [] ∧
    (activityPatterns.map (fun p => (findall true p [' ']).length)).sum = 0 ∧
    count_activities [' '] = 0 := by
  decide

/-- C9, counterexample: on `timeProbe` the analyzer's time allocation is
10 minutes (extracted from the `actividades` span), while the time extractor
applied to the `tiempo` span alone — as claim C9 states the wiring — yields
0 minutes: the source feeds the concatenation of the `tiempo` and
`actividades` spans to the time extractor. -/
theorem c9_orchestrator_wiring_counterexample :
    (analyze_lesson_plan_structure timeProbe).time_allocation.total_minutes = 10 ∧
    (extract_time_info
      (lookupD (extract_sections (clean_text timeProbe)) "tiempo")).total_minutes = 0 := by
  decide

/-- C9, amended: the orchestrator wiring, with the time extractor running on
the concatenation of the `tiempo` span and the `actividades` span; the
grade-level extractor runs on the full normalized text, `total_pages` counts
page-marker prefixes in the original text, and `total_words` counts the words
of the normalized text. -/
theorem c9_orchestrator_wiring_amended (text : List Char) :
    analyze_lesson_plan_structure text =
      { total_words := countWords (clean_text text),
        total_pages := countSub ("--- Página").data text,
        sections_found := (extract_sections (clean_text text)).map Prod.fst,
        sections_content := extract_sections (clean_text text),
        grade_level_indicators := detect_grade_level (clean_text text),
        learning_objectives :=
          extract_learning_objectives (lookupD (extract_sections (clean_text text)) "objetivos"),
        activities_count :=
          count_activities (lookupD (extract_sections (clean_text text)) "actividades"),
        assessment_methods :=
          extract_assessment_methods (lookupD (extract_sections (clean_text text)) "evaluacion"),
        resources_list :=
          extract_resources (lookupD (extract_sections (clean_text text)) "recursos"),
        time_allocation :=
          extract_time_info (lookupD (extract_sections (clean_text text)) "tiempo" ++
            lookupD (extract_sections (clean_text text)) "actividades"),
        completeness_score :=
          calculate_completeness_score (extract_sections (clean_text text)) } :=
  rfl

/-- C3, counterexample: removing a page marker can merge the single spaces
around it, so the normalizer output `a  b` contains two consecutive
whitespace characters. -/
theorem c3_normalizer_counterexample :
    clean_text markerProbe = ("a  b").data ∧
    hasDoubleWs (clean_text markerProbe) = true := by
  decide

/-- C2, counterexample: on `bufferProbe` the `actividades` span recorded by
the source is stripped of its trailing space, while claim C2's unstripped
slice keeps it. -/
theorem c2_section_locator_counterexample :
    claimSectionSpan bufferProbe "actividades" patActividades ≠
      lookupSec (extract_sections bufferProbe) "actividades" := by
  decide

/-! ## Claim theorems: the activities counter -/

/-- C8, amended: blank input yields 0; non-blank input with zero matches over
the four heuristics yields the floor 1; non-blank input with at least one
match yields the sum of the match counts (which is also an upper view of the
non-negativity claim, trivial over `Nat`). -/
theorem c8_count_activities_amended (t : List Char) :
    ((stripChars t).isEmpty = true → count_activities t = 0) ∧
    ((stripChars t).isEmpty = false →
      (activityPatterns.map (fun p => (findall true p t).length)).sum = 0 →
      count_activities t = 1) ∧
    ((stripChars t).isEmpty = false →
      0 < (activityPatterns.map (fun p => (findall true p t).length)).sum →
      count_activities t =
        (activityPatterns.map (fun p => (findall true p t).length)).sum) := by
  unfold count_activities
  cases t with
  | nil =>
    refine ⟨fun _ => rfl, fun h => absurd h (by decide), fun h => absurd h (by decide)⟩
  | cons c rest =>
    refine ⟨fun h => ?_, fun h hz => ?_, fun h hp => ?_⟩
    · simp [h]
    · simp [h, hz]
    · simp only [List.isEmpty_cons, Bool.false_eq_true, if_false, h]
      exact Nat.max_eq_left hp

/-- C8, witness: on the non-blank input `inicio:` the stage-marker heuristic
matches once, and the counter indeed returns the sum of the match counts. -/
theorem c8_count_activities_witness :
    (stripChars ("inicio:").data).isEmpty = false ∧
    0 < (activityPatterns.map (fun p => (findall true p ("inicio:").data).length)).sum ∧
    count_activities ("inicio:").data =
      (activityPatterns.map (fun p => (findall true p ("inicio:").data).length)).sum :=
  ⟨by decide, by decide,
    (c8_count_activities_amended ("inicio:").data).2.2 (by decide) (by decide)⟩

/-! ## Claim theorems: the completeness scorer -/

/-- C1: the completeness score is the floor of
`(essential-count / 3) * 70 + (recommended-count / 3) * 30` where a category
counts only when it is in the map with a non-blank span; the score is at most
100 (it is a `Nat`, hence a non-negative integer); and it is exactly 100 when
all six categories are present with non-blank spans. -/
theorem c1_completeness_score_spec (sections : List (String × List Char)) :
    calculate_completeness_score sections =
      Nat.floor
        (((essentialSections.countP (fun c => presentNonblank sections c) : ℚ) / 3) * 70 +
          ((recommendedSections.countP (fun c => presentNonblank sections c) : ℚ) / 3) * 30) ∧
    calculate_completeness_score sections ≤ 100 ∧
    ((essentialSections ++ recommendedSections).all
        (fun c => presentNonblank sections c) = true →
      calculate_completeness_score sections = 100) := by
  have he3 : essentialSections.countP (fun c => presentNonblank sections c) ≤ 3 :=
    List.countP_le_length _
  have hr3 : recommendedSections.countP (fun c => presentNonblank sections c) ≤ 3 :=
    List.countP_le_length _
  refine ⟨?_, ?_, ?_⟩
  · show (70 * essentialSections.countP (fun c => presentNonblank sections c) +
        30 * recommendedSections.countP (fun c => presentNonblank sections c)) / 3 = _
    have key : (((essentialSections.countP (fun c => presentNonblank sections c) : ℚ) / 3) * 70 +
        ((recommendedSections.countP (fun c => presentNonblank sections c) : ℚ) / 3) * 30) =
        (((70 * essentialSections.countP (fun c => presentNonblank sections c) +
          30 * recommendedSections.countP (fun c => presentNonblank sections c) : ℕ) : ℚ) /
          ((3 : ℕ) : ℚ)) := by
      push_cast
      ring
    rw [key, Nat.floor_div_nat, Nat.floor_natCast]
  · show (70 * essentialSections.countP (fun c => presentNonblank sections c) +
        30 * recommendedSections.countP (fun c => presentNonblank sections c)) / 3 ≤ 100
    omega
  · intro hall
    simp only [essentialSections, recommendedSections, List.all_append, List.all_cons,
      List.all_nil, Bool.and_eq_true, Bool.and_true] at hall
    obtain ⟨⟨h1, h2, h3⟩, h4, h5, h6⟩ := hall
    show (70 * essentialSections.countP (fun c => presentNonblank sections c) +
        30 * recommendedSections.countP (fun c => presentNonblank sections c)) / 3 = 100
    simp [essentialSections, recommendedSections, List.countP_cons, h1, h2, h3, h4, h5, h6,
      List.countP_nil]

/-- C1, witness: a section map holding all six categories with non-blank
spans scores exactly 100. -/
theorem c1_completeness_score_witness :
    calculate_completeness_score
      [("objetivos", ['x']), ("contenidos", ['x']), ("actividades", ['x']),
        ("evaluacion", ['x']), ("recursos", ['x']), ("tiempo", ['x'])] = 100 :=
  (c1_completeness_score_spec
    [("objetivos", ['x']), ("contenidos", ['x']), ("actividades", ['x']),
      ("evaluacion", ['x']), ("recursos", ['x']), ("tiempo", ['x'])]).2.2 (by decide)

/-! ## Properties of stripping -/

/-- The head of a `dropWhile` result never satisfies the dropped predicate. -/
theorem dropWhile_head_all (q : Char → Bool) (l : List Char) :
    ((l.dropWhile q).head?.all (fun c => !q c)) = true := by
  induction l with
  | nil => rfl
  | cons c rest ih =>
    by_cases h : q c = true
    · simpa [List.dropWhile_cons, h] using ih
    · simp [List.dropWhile_cons, h]

/-- `dropTrailing` preserves any property of the head. -/
theorem dropTrailing_head_all (P : Char → Bool) (l : List Char)
    (h : l.head?.all P = true) : ((dropTrailing l).head?.all P) = true := by
  cases l with
  | nil => rfl
  | cons c rest =>
    simp only [dropTrailing]
    by_cases hb : ((dropTrailing rest).isEmpty && isSpaceChar c) = true
    · simp [hb]
    · simp only [Bool.not_eq_true] at hb
      simp only [hb, if_false]
      simpa using h

/-- A non-empty stripped string starts with a non-whitespace character. -/
theorem stripChars_head_all (l : List Char) :
    ((stripChars l).head?.all (fun c => !isSpaceChar c)) = true :=
  dropTrailing_head_all _ _ (dropWhile_head_all _ l)

/-- Truncation to 1000 characters preserves head properties. -/
theorem take1000_head_all (P : Char → Bool) (l : List Char)
    (h : l.head?.all P = true) : ((l.take 1000).head?.all P) = true := by
  cases l with
  | nil => rfl
  | cons c rest =>
    have hh : ((c :: rest).take 1000).head? = some c := rfl
    rw [hh]
    exact h

/-- Every span recorded by the section locator is non-empty, at most 1000
characters long, and starts with a non-whitespace character. -/
theorem extract_sections_spans {text : List Char} {pr : String × List Char}
    (h : pr ∈ extract_sections text) :
    pr.2 ≠ [] ∧ pr.2.length ≤ 1000 ∧ (pr.2.head?.all (fun c => !isSpaceChar c)) = true := by
  simp only [extract_sections, List.mem_filterMap] at h
  obtain ⟨np, hnp, hf⟩ := h
  cases htry : tryPatternsStart np.2 (lowerList text) with
  | none => rw [htry] at hf; simp at hf
  | some start =>
    rw [htry] at hf
    dsimp only at hf
    by_cases hemp : (stripChars (sliceList text start
        ((minList? (nextSections np.1 (lowerList text) start)).getD text.length))).isEmpty = true
    · rw [if_pos hemp] at hf; cases hf
    · rw [if_neg hemp] at hf
      cases hf
      have hne : stripChars (sliceList text start
          ((minList? (nextSections np.1 (lowerList text) start)).getD text.length)) ≠ [] := by
        intro hcon
        rw [hcon] at hemp
        exact hemp rfl
      refine ⟨?_, List.length_take_le _ _, take1000_head_all _ _ (stripChars_head_all _)⟩
      cases hcc : stripChars (sliceList text start
          ((minList? (nextSections np.1 (lowerList text) start)).getD text.length)) with
      | nil => exact absurd hcc hne
      | cons d ds =>
        show ((d :: ds).take 1000) ≠ []
        have hcht : ((d :: ds).take 1000) = d :: ds.take 999 := rfl
        rw [hcht]
        exact List.cons_ne_nil _ _

/-- C10: the analyzer's `sections_found` is exactly the key list of
`sections_content`, and every stored span is non-empty, at most 1000
characters, and starts with a non-whitespace character — so membership in
`sections_found` already implies a non-blank span. -/
theorem c10_sections_invariant (text : List Char) :
    (analyze_lesson_plan_structure text).sections_found =
      (analyze_lesson_plan_structure text).sections_content.map Prod.fst ∧
    ∀ pr ∈ (analyze_lesson_plan_structure text).sections_content,
      pr.2 ≠ [] ∧ pr.2.length ≤ 1000 ∧ (pr.2.head?.all (fun c => !isSpaceChar c)) = true :=
  ⟨rfl, fun _ hpr => extract_sections_spans hpr⟩

/-- C10, witness: the invariant instantiated on a concrete one-section
input. -/
theorem c10_sections_invariant_witness :
    ("metodología").data ≠ [] ∧ ("metodología").data.length ≤ 1000 ∧
    ((("metodología").data.head?.all (fun c => !isSpaceChar c)) = true) :=
  (c10_sections_invariant ("metodología").data).2 ("actividades", ("metodología").data)
    (by decide)

/-! ## Properties of the normalizer -/

/-- Whitespace characters are fixed points of the case folding. -/
theorem isSpace_lower_self {c : Char} (h : isSpaceChar c = true) : lowerChar c = c := by
  simp only [isSpaceChar, Bool.or_eq_true, beq_iff_eq] at h
  rcases h with ((((h | h) | h) | h) | h) | h <;> subst h <;> rfl

/-- Whitespace collapsing never emits a newline. -/
theorem collapseWsAux_no_nl (t : List Char) : ∀ b, ∀ c ∈ collapseWsAux t b, c ≠ '\n' := by
  induction t with
  | nil => intro b c hc; cases hc
  | cons x rest ih =>
    intro b c hc
    by_cases hx : isSpaceChar x = true
    · cases b with
      | true =>
        simp only [collapseWsAux, hx, if_true] at hc
        exact ih true c hc
      | false =>
        simp [collapseWsAux, hx] at hc
        rcases hc with rfl | hc
        · decide
        · exact ih true c hc
    · have hx2 : isSpaceChar x = false := by simpa using hx
      simp [collapseWsAux, hx2] at hc
      rcases hc with rfl | hc
      · intro hcn
        subst hcn
        exact hx (by decide)
      · exact ih false c hc

/-- Newline collapsing is the identity on newline-free text. -/
theorem collapseNLAux_id (l : List Char) (h : ∀ c ∈ l, c ≠ '\n') :
    ∀ b, collapseNLAux l b = l := by
  induction l with
  | nil => intro b; rfl
  | cons c rest ih =>
    intro b
    have hc : (c == '\n') = false :=
      beq_eq_false_iff_ne.mpr (h c (List.mem_cons_self _ _))
    simp only [collapseNLAux]
    rw [if_neg (by simp [hc])]
    exact congrArg (c :: ·) (ih (fun x hx => h x (List.mem_cons_of_mem _ hx)) false)

/-- Transitivity of the boolean prefix test. -/
theorem isPrefixOf_trans {a : List Char} : ∀ {b c : List Char},
    a.isPrefixOf b = true → b.isPrefixOf c = true → a.isPrefixOf c = true := by
  induction a with
  | nil => intro b c _ _; cases c <;> rfl
  | cons x xs ih =>
    intro b c hab hbc
    cases b with
    | nil => simp [List.isPrefixOf] at hab
    | cons y ys =>
      cases c with
      | nil => simp [List.isPrefixOf] at hbc
      | cons z zs =>
        simp only [List.isPrefixOf, Bool.and_eq_true, beq_iff_eq] at hab hbc ⊢
        exact ⟨hab.1.trans hbc.1, ih hab.2 hbc.2⟩

/-- A recognized page marker starts with the literal `--- Página`. -/
theorem matchMarker_isSome_sub {s : List Char} (h : (matchMarker s).isSome = true) :
    ("--- Página").data.isPrefixOf s = true := by
  by_cases hp : ("--- Página ").data.isPrefixOf s = true
  · exact isPrefixOf_trans (by decide) hp
  · unfold matchMarker at h
    simp [hp] at h

/-- Marker removal is the identity on text without the marker prefix. -/
theorem rmAux_id : ∀ {l : List Char}, containsSub ("--- Página").data l = false →
    rmAux l 0 = l := by
  intro l
  induction l with
  | nil => intro _; rfl
  | cons c rest ih =>
    intro h
    have hsplit : ("--- Página").data.isPrefixOf (c :: rest) = false ∧
        containsSub ("--- Página").data rest = false := by
      simpa [containsSub, Bool.or_eq_false_iff] using h
    have hm : matchMarker (c :: rest) = none := by
      cases hmm : matchMarker (c :: rest) with
      | none => rfl
      | some L =>
        have hps := matchMarker_isSome_sub (s := c :: rest) (by rw [hmm]; rfl)
        rw [hsplit.1] at hps
        cases hps
    simp only [rmAux, hm]
    exact congrArg (c :: ·) (ih hsplit.2)

/-- Unfolding equation for `hasDoubleWs` on two or more characters. -/
theorem hasDoubleWs_cons_cons {a b : Char} {l : List Char} :
    hasDoubleWs (a :: b :: l) = ((isSpaceChar a && isSpaceChar b) || hasDoubleWs (b :: l)) := rfl

/-- Dropping the head preserves the absence of doubled whitespace. -/
theorem hasDoubleWs_tail {a : Char} {l : List Char} (h : hasDoubleWs (a :: l) = false) :
    hasDoubleWs l = false := by
  cases l with
  | nil => rfl
  | cons b bs =>
    rw [hasDoubleWs_cons_cons, Bool.or_eq_false_iff] at h
    exact h.2

/-- After a whitespace run was entered, the collapse output starts with a
non-whitespace character. -/
theorem collapseWsAux_true_head (t : List Char) :
    ((collapseWsAux t true).head?.all (fun c => !isSpaceChar c)) = true := by
  induction t with
  | nil => rfl
  | cons c rest ih =>
    by_cases hc : isSpaceChar c = true
    · simpa [collapseWsAux, hc] using ih
    · simp [collapseWsAux, hc]

/-- Whitespace collapsing leaves no two consecutive whitespace characters. -/
theorem collapseWsAux_no_double (t : List Char) :
    ∀ b, hasDoubleWs (collapseWsAux t b) = false := by
  induction t with
  | nil => intro b; rfl
  | cons c rest ih =>
    intro b
    by_cases hc : isSpaceChar c = true
    · cases b with
      | true => simpa [collapseWsAux, hc] using ih true
      | false =>
        have hrw : collapseWsAux (c :: rest) false = ' ' :: collapseWsAux rest true := by
          simp [collapseWsAux, hc]
        rw [hrw]
        cases hx : collapseWsAux rest true with
        | nil => rfl
        | cons d ds =>
          rw [hasDoubleWs_cons_cons]
          have hhead := collapseWsAux_true_head rest
          rw [hx] at hhead
          have hds : isSpaceChar d = false := by simpa using hhead
          have h2 := ih true
          rw [hx] at h2
          simp [hds, h2]
    · have hc2 : isSpaceChar c = false := by simpa using hc
      have hrw : collapseWsAux (c :: rest) b = c :: collapseWsAux rest false := by
        simp [collapseWsAux, hc2]
      rw [hrw]
      cases hx : collapseWsAux rest false with
      | nil => rfl
      | cons d ds =>
        rw [hasDoubleWs_cons_cons]
        have h2 := ih false
        rw [hx] at h2
        simp [hc2, h2]

/-- `dropWhile` preserves the absence of doubled whitespace. -/
theorem hasDoubleWs_dropWhile (q : Char → Bool) (l : List Char)
    (h : hasDoubleWs l = false) : hasDoubleWs (l.dropWhile q) = false := by
  induction l with
  | nil => rfl
  | cons c rest ih =>
    by_cases hc : q c = true
    · rw [List.dropWhile_cons_of_pos hc]
      exact ih (hasDoubleWs_tail h)
    · rw [List.dropWhile_cons_of_neg (by simpa using hc)]
      exact h

/-- `dropTrailing` returns the empty list or keeps the head. -/
theorem dropTrailing_nil_or_head (l : List Char) :
    dropTrailing l = [] ∨ (dropTrailing l).head? = l.head? := by
  cases l with
  | nil => left; rfl
  | cons c rest =>
    simp only [dropTrailing]
    by_cases hb : ((dropTrailing rest).isEmpty && isSpaceChar c) = true
    · left; simp [hb]
    · right; simp [hb]

/-- `dropTrailing` preserves the absence of doubled whitespace. -/
theorem hasDoubleWs_dropTrailing (l : List Char) (h : hasDoubleWs l = false) :
    hasDoubleWs (dropTrailing l) = false := by
  induction l with
  | nil => rfl
  | cons c rest ih =>
    simp only [dropTrailing]
    by_cases hb : ((dropTrailing rest).isEmpty && isSpaceChar c) = true
    · rw [if_pos hb]; rfl
    · rw [if_neg hb]
      cases hd : dropTrailing rest with
      | nil => rfl
      | cons d ds =>
        rw [hasDoubleWs_cons_cons]
        have hrec := ih (hasDoubleWs_tail h)
        rw [hd] at hrec
        rcases dropTrailing_nil_or_head rest with hnil | hhead
        · rw [hnil] at hd; cases hd
        · rw [hd] at hhead
          cases rest with
          | nil => simp at hhead
          | cons e es =>
            simp only [List.head?_cons, Option.some.injEq] at hhead
            subst hhead
            rw [hasDoubleWs_cons_cons, Bool.or_eq_false_iff] at h
            simp [h.1, hrec]

/-- The empty pattern is a substring of everything. -/
theorem containsSub_nil_left : ∀ b : List Char, containsSub [] b = true
  | [] => rfl
  | _ :: _ => rfl

/-- A substring of a prefix is a substring of the whole. -/
theorem containsSub_of_isPre {p : List Char} : ∀ {a b : List Char},
    containsSub p a = true → a.isPrefixOf b = true → containsSub p b = true := by
  intro a
  induction a with
  | nil =>
    intro b h _
    cases p with
    | nil => exact containsSub_nil_left b
    | cons _ _ => simp [containsSub] at h
  | cons x xs ih =>
    intro b h hp
    cases b with
    | nil => simp [List.isPrefixOf] at hp
    | cons y ys =>
      simp only [containsSub, Bool.or_eq_true] at h ⊢
      rcases h with h | h
      · left; exact isPrefixOf_trans h hp
      · right
        simp only [List.isPrefixOf, Bool.and_eq_true] at hp
        exact ih h hp.2

/-- `dropTrailing` yields a prefix of its input. -/
theorem dropTrailing_isPre : ∀ l : List Char, (dropTrailing l).isPrefixOf l = true := by
  intro l
  induction l with
  | nil => rfl
  | cons c rest ih =>
    simp only [dropTrailing]
    by_cases hb : ((dropTrailing rest).isEmpty && isSpaceChar c) = true
    · simp [hb]
    · simp only [hb, if_false, List.isPrefixOf, beq_self_eq_true, Bool.true_and]
      exact ih

/-- A substring of `dropWhile` output is a substring of the input. -/
theorem containsSub_dropWhile {p : List Char} (q : Char → Bool) : ∀ {l : List Char},
    containsSub p (l.dropWhile q) = true → containsSub p l = true := by
  intro l
  induction l with
  | nil => intro h; exact h
  | cons c rest ih =>
    intro h
    by_cases hc : q c = true
    · rw [List.dropWhile_cons_of_pos hc] at h
      simp [containsSub, ih h]
    · rwa [List.dropWhile_cons_of_neg (by simpa using hc)] at h

/-- A page-marker occurrence contains the literal `--- Página`. -/
theorem containsMarkerB_sub : ∀ {l : List Char}, containsMarkerB l = true →
    containsSub ("--- Página").data l = true := by
  intro l
  induction l with
  | nil => intro h; exact absurd h (by decide)
  | cons c rest ih =>
    intro h
    simp only [containsMarkerB, Bool.or_eq_true] at h
    rcases h with h | h
    · simp [containsSub, matchMarker_isSome_sub h]
    · simp [containsSub, ih h]

/-- C3, amended: whenever the whitespace-collapsed input contains no
occurrence of `--- Página` (so that page-marker removal cannot splice spaces
together or synthesize a new marker), the normalizer output has no two
consecutive whitespace characters and no page-marker substring; and the
normalizer maps empty input to empty output (all embedded stages are total
functions, which models `never raises`). -/
theorem c3_normalizer_amended (text : List Char) :
    (containsSub ("--- Página").data (collapseWs text) = false →
      hasDoubleWs (clean_text text) = false ∧ containsMarkerB (clean_text text) = false) ∧
    clean_text [] = [] := by
  refine ⟨fun H => ?_, rfl⟩
  have hnl : collapseNL (collapseWs text) = collapseWs text :=
    collapseNLAux_id _ (collapseWsAux_no_nl text false) false
  have hrm : removeMarkers (collapseWs text) = collapseWs text := rmAux_id H
  have hcw : hasDoubleWs (collapseWs text) = false := collapseWsAux_no_double text false
  unfold clean_text
  rw [hnl, hrm]
  constructor
  · exact hasDoubleWs_dropTrailing _ (hasDoubleWs_dropWhile _ _ hcw)
  · cases hmb : containsMarkerB (stripChars (collapseWs text)) with
    | false => rfl
    | true =>
      have h1 := containsMarkerB_sub hmb
      have h2 : containsSub ("--- Página").data
          ((collapseWs text).dropWhile isSpaceChar) = true :=
        containsSub_of_isPre h1 (dropTrailing_isPre _)
      have h3 := containsSub_dropWhile isSpaceChar h2
      rw [H] at h3
      cases h3

/-- C3, witness: a marker-free input for the amended normalizer property. -/
theorem c3_normalizer_witness :
    containsSub ("--- Página").data (collapseWs ("hola  mundo").data) = false ∧
    hasDoubleWs (clean_text ("hola  mundo").data) = false ∧
    containsMarkerB (clean_text ("hola  mundo").data) = false :=
  ⟨by decide, ((c3_normalizer_amended ("hola  mundo").data).1 (by decide)).1,
    ((c3_normalizer_amended ("hola  mundo").data).1 (by decide)).2⟩

/-! ## Generic list helpers -/

/-- Pointwise-equal functions map lists equally. -/
theorem mapCongrMem {α β : Type} {f g : α → β} : ∀ {l : List α},
    (∀ a ∈ l, f a = g a) → l.map f = l.map g := by
  intro l
  induction l with
  | nil => intro _; rfl
  | cons x rest ih =>
    intro h
    simp only [List.map_cons]
    rw [h x (List.mem_cons_self _ _), ih (fun a ha => h a (List.mem_cons_of_mem _ ha))]

/-- Pointwise-equal functions filter-map lists equally. -/
theorem filterMapCongrMem {α β : Type} {f g : α → Option β} : ∀ {l : List α},
    (∀ a ∈ l, f a = g a) → l.filterMap f = l.filterMap g := by
  intro l
  induction l with
  | nil => intro _; rfl
  | cons x rest ih =>
    intro h
    simp only [List.filterMap_cons]
    rw [h x (List.mem_cons_self _ _), ih (fun a ha => h a (List.mem_cons_of_mem _ ha))]

/-- A successful `findSome?` comes from some member of the list. -/
theorem findSome?_mem {α β : Type} {f : α → Option β} : ∀ {l : List α} {b : β},
    l.findSome? f = some b → ∃ a, a ∈ l ∧ f a = some b := by
  intro l
  induction l with
  | nil => intro b h; cases h
  | cons x rest ih =>
    intro b h
    rw [List.findSome?_cons] at h
    cases hx : f x with
    | some y =>
      rw [hx] at h
      cases h
      exact ⟨x, List.mem_cons_self _ _, hx⟩
    | none =>
      rw [hx] at h
      obtain ⟨a, ha, hfa⟩ := ih h
      exact ⟨a, List.mem_cons_of_mem _ ha, hfa⟩

/-- The minimum of a list: empty case and full characterization. -/
theorem minList?_spec : ∀ l : List Nat,
    (l = [] ∧ minList? l = none) ∨
      ∃ m, minList? l = some m ∧ m ∈ l ∧ ∀ x ∈ l, m ≤ x := by
  intro l
  induction l with
  | nil => left; exact ⟨rfl, rfl⟩
  | cons x rest ih =>
    right
    rcases ih with ⟨hnil, hmin⟩ | ⟨m, h1, h2, h3⟩
    · subst hnil
      refine ⟨x, by simp [minList?], List.mem_cons_self _ _, ?_⟩
      intro y hy
      rcases List.mem_cons.mp hy with rfl | hy
      · exact le_refl y
      · cases hy
    · refine ⟨min x m, by simp [minList?, h1], ?_, ?_⟩
      · rcases le_total x m with hxm | hxm
        · rw [min_eq_left hxm]; exact List.mem_cons_self _ _
        · rw [min_eq_right hxm]; exact List.mem_cons_of_mem _ h2
      · intro y hy
        rcases List.mem_cons.mp hy with rfl | hy
        · exact min_le_left _ _
        · exact le_trans (min_le_right _ _) (h3 y hy)

/-! ## Properties of the regex engine and search -/

/-- An anchor-free regex ignores the preceding character. -/
theorem runM_prev_irrelevant (ci : Bool) : ∀ re : RE, re.noAnchor = true →
    ∀ (p1 p2 : Option Char) (s : List Char), RE.runM ci re p1 s = RE.runM ci re p2 s := by
  intro re
  induction re with
  | eps => intro _ p1 p2 s; rfl
  | lit c => intro _ p1 p2 s; cases s <;> rfl
  | cls p => intro _ p1 p2 s; cases s <;> rfl
  | seq a b iha ihb =>
    intro h p1 p2 s
    rw [RE.noAnchor, Bool.and_eq_true] at h
    simp only [RE.runM]
    rw [iha h.1 p1 p2 s]
    congr 1
    apply mapCongrMem
    intro r _
    rw [ihb h.2 (lastOr r.consumed p1) (lastOr r.consumed p2) r.rest]
  | alt a b iha ihb =>
    intro h p1 p2 s
    rw [RE.noAnchor, Bool.and_eq_true] at h
    simp only [RE.runM]
    rw [iha h.1 p1 p2 s, ihb h.2 p1 p2 s]
  | opt a iha =>
    intro h p1 p2 s
    rw [RE.noAnchor] at h
    simp only [RE.runM]
    rw [iha h p1 p2 s]
  | plusCls p => intro _ p1 p2 s; rfl
  | starCls p => intro _ p1 p2 s; rfl
  | lazyPlusCls p => intro _ p1 p2 s; rfl
  | grp a iha =>
    intro h p1 p2 s
    rw [RE.noAnchor] at h
    simp only [RE.runM]
    rw [iha h p1 p2 s]
  | bol => intro h; exact absurd h (by decide)
  | lookNLEnd => intro _ p1 p2 s; cases s <;> rfl

/-- A regex that starts with a literal only matches at that literal. -/
theorem startsWithLit_sound (ci : Bool) : ∀ re : RE, ∀ {c : Char},
    startsWithLit re = some c → ∀ (prev : Option Char) (s : List Char),
      RE.runM ci re prev s ≠ [] → ∃ h t, s = h :: t ∧ charMatches ci c h = true := by
  intro re
  induction re with
  | eps => intro c hswl; cases hswl
  | lit pc =>
    intro c hswl prev s hne
    simp only [startsWithLit, Option.some.injEq] at hswl
    cases s with
    | nil => exact absurd rfl hne
    | cons x rest =>
      by_cases hm : charMatches ci pc x = true
      · exact ⟨x, rest, rfl, hswl ▸ hm⟩
      · exfalso
        apply hne
        simp only [RE.runM]
        rw [if_neg hm]
  | cls p => intro c hswl; cases hswl
  | seq a b iha ihb =>
    intro c hswl prev s hne
    have ha : startsWithLit a = some c := hswl
    have hane : RE.runM ci a prev s ≠ [] := by
      intro hnil
      apply hne
      simp only [RE.runM, hnil, List.map_nil, List.flatten_nil]
    exact iha ha prev s hane
  | alt a b iha ihb => intro c hswl; cases hswl
  | opt a iha => intro c hswl; cases hswl
  | plusCls p => intro c hswl; cases hswl
  | starCls p => intro c hswl; cases hswl
  | lazyPlusCls p => intro c hswl; cases hswl
  | grp a iha =>
    intro c hswl prev s hne
    have hane : RE.runM ci a prev s ≠ [] := by
      intro hnil
      apply hne
      simp only [RE.runM, hnil, List.map_nil]
    exact iha hswl prev s hane
  | bol => intro c hswl; cases hswl
  | lookNLEnd => intro c hswl; cases hswl

/-- Characterization of a successful bounded least-position scan. -/
theorem leastFrom_some (P : Nat → Bool) (n : Nat) : ∀ a k : Nat, leastFrom P a n = some k →
    a ≤ k ∧ k < a + n ∧ P k = true ∧ ∀ j, a ≤ j → j < k → P j = false := by
  induction n with
  | zero => intro a k h; cases h
  | succ m ih =>
    intro a k h
    simp only [leastFrom] at h
    by_cases hp : P a = true
    · rw [if_pos hp] at h
      cases h
      exact ⟨le_refl a, by omega, hp, fun j hj1 hj2 => absurd hj1 (by omega)⟩
    · rw [if_neg hp] at h
      obtain ⟨h1, h2, h3, h4⟩ := ih (a + 1) k h
      refine ⟨by omega, by omega, h3, fun j hj1 hj2 => ?_⟩
      by_cases hja : j = a
      · subst hja; simpa using hp
      · exact h4 j (by omega) hj2

/-- Characterization of a failed bounded least-position scan. -/
theorem leastFrom_none (P : Nat → Bool) (n : Nat) : ∀ a : Nat, leastFrom P a n = none →
    ∀ j, a ≤ j → j < a + n → P j = false := by
  induction n with
  | zero => intro a _ j h1 h2; omega
  | succ m ih =>
    intro a h j h1 h2
    simp only [leastFrom] at h
    by_cases hp : P a = true
    · rw [if_pos hp] at h; cases h
    · rw [if_neg hp] at h
      by_cases hja : j = a
      · subst hja; simpa using hp
      · exact ih (a + 1) h j (by omega) (by omega)

/-- A satisfied position inside the scan range yields a result no later than
it. -/
theorem leastFrom_le (P : Nat → Bool) (n : Nat) : ∀ a i : Nat, a ≤ i → i < a + n →
    P i = true → ∃ k, leastFrom P a n = some k ∧ k ≤ i := by
  induction n with
  | zero => intro a i h1 h2 _; omega
  | succ m ih =>
    intro a i h1 h2 hp
    simp only [leastFrom]
    by_cases hpa : P a = true
    · rw [if_pos hpa]; exact ⟨a, rfl, h1⟩
    · rw [if_neg hpa]
      have hia : i ≠ a := fun hh => hpa (hh ▸ hp)
      exact ih (a + 1) i (by omega) (by omega) hp

/-- One-step unfolding of the bounded scan. -/
theorem leastFrom_succ (P : Nat → Bool) (a n : Nat) :
    leastFrom P a (n + 1) = if P a then some a else leastFrom P (a + 1) n := rfl

/-- Shifting the scan start by one. -/
theorem leastFrom_shift (P : Nat → Bool) (n : Nat) : ∀ a : Nat,
    leastFrom P (a + 1) n = (leastFrom (fun i => P (i + 1)) a n).map (fun k => k + 1) := by
  induction n with
  | zero => intro a; rfl
  | succ m ih =>
    intro a
    simp only [leastFrom]
    by_cases hp : P (a + 1) = true
    · rw [if_pos hp, if_pos hp]
      rfl
    · rw [if_neg hp, if_neg hp]
      exact ih (a + 1)

/-- The position scan of `re.search` computes exactly the least matching
position, for anchor-free regexes. -/
theorem searchFrom_eq_least (ci : Bool) (re : RE) (h : re.noAnchor = true) :
    ∀ (s : List Char) (prev : Option Char) (pos : Nat),
      (searchFrom ci re prev s pos).map Prod.fst =
        (leastFrom (fun i => !(RE.runM ci re none (s.drop i)).isEmpty) 0 (s.length + 1)).map
          (fun k => pos + k) := by
  intro s
  induction s with
  | nil =>
    intro prev pos
    simp only [searchFrom, leastFrom, List.length_nil]
    rw [runM_prev_irrelevant ci re h prev none []]
    cases hm : RE.runM ci re none [] with
    | nil => simp [hm]
    | cons m ms => simp [hm]
  | cons c rest ih =>
    intro prev pos
    simp only [searchFrom]
    rw [runM_prev_irrelevant ci re h prev none (c :: rest)]
    cases hm : RE.runM ci re none (c :: rest) with
    | cons m ms =>
      have hp : (!(RE.runM ci re none ((c :: rest).drop 0)).isEmpty) = true := by
        simp [hm]
      have hlen : (c :: rest).length + 1 = (rest.length + 1) + 1 := by simp
      rw [hlen, leastFrom_succ]
      rw [if_pos hp]
      simp
    | nil =>
      rw [ih (some c) (pos + 1)]
      have hlen : (c :: rest).length + 1 = (rest.length + 1) + 1 := by simp
      have hshift := leastFrom_shift
        (fun i => !(RE.runM ci re none ((c :: rest).drop i)).isEmpty) (rest.length + 1) 0
      have hfun : (fun i => !(RE.runM ci re none ((c :: rest).drop (i + 1))).isEmpty) =
          (fun i => !(RE.runM ci re none (rest.drop i)).isEmpty) := rfl
      rw [hfun] at hshift
      have hneg : ¬((!(RE.runM ci re none ((c :: rest).drop 0)).isEmpty) = true) := by
        simp [hm]
      conv_rhs => rw [hlen, leastFrom_succ, if_neg hneg]
      rw [Nat.zero_add, hshift]
      cases hq : leastFrom (fun i => !(RE.runM ci re none (rest.drop i)).isEmpty) 0
          (rest.length + 1) with
      | none => rfl
      | some k =>
        simp only [Option.map_some']
        congr 1
        omega

/-- For anchor-free regexes, the search start position is the least matching
position. -/
theorem reSearchPos_eq_firstMatchIdx (ci : Bool) (re : RE) (h : re.noAnchor = true)
    (s : List Char) : reSearchPos ci re s = firstMatchIdx ci re s := by
  unfold reSearchPos firstMatchIdx
  rw [searchFrom_eq_least ci re h s none 0]
  cases leastFrom (fun i => !(RE.runM ci re none (s.drop i)).isEmpty) 0 (s.length + 1) with
  | none => rfl
  | some k => simp

/-- The source's first-matching-pattern loop is `findSome?` over the least
match positions. -/
theorem tryPatternsStart_eq (tl : List Char) : ∀ pats : List RE,
    (∀ p ∈ pats, RE.noAnchor p = true) →
    tryPatternsStart pats tl = pats.findSome? (fun p => firstMatchIdx false p tl) := by
  intro pats
  induction pats with
  | nil => intro _; rfl
  | cons p rest ih =>
    intro h
    have hp := h p (List.mem_cons_self _ _)
    simp only [tryPatternsStart]
    rw [List.findSome?_cons, reSearchPos_eq_firstMatchIdx false p hp tl]
    cases firstMatchIdx false p tl with
    | some k => rfl
    | none => exact ih (fun q hq => h q (List.mem_cons_of_mem _ hq))

/-! ## The section catalog is anchor-free and literal-headed -/

/-- Every heading pattern of the catalog is anchor-free and starts with a
non-whitespace letter literal. -/
theorem sectionPatterns_props : ∀ op ∈ sectionPatterns, ∀ p ∈ op.2,
    RE.noAnchor p = true ∧ ∃ c, startsWithLit p = some c ∧ isSpaceChar c = false := by
  intro op hop p hp
  simp only [sectionPatterns, List.mem_cons, List.not_mem_nil, or_false] at hop
  rcases hop with rfl | rfl | rfl | rfl | rfl | rfl
  · simp only [patObjetivos, List.mem_cons, List.not_mem_nil, or_false] at hp
    rcases hp with rfl | rfl | rfl | rfl | rfl
    · exact ⟨by decide, 'o', rfl, by decide⟩
    · exact ⟨by decide, 'p', rfl, by decide⟩
    · exact ⟨by decide, 'm', rfl, by decide⟩
    · exact ⟨by decide, 'q', rfl, by decide⟩
    · exact ⟨by decide, 'l', rfl, by decide⟩
  · simp only [patContenidos, List.mem_cons, List.not_mem_nil, or_false] at hp
    rcases hp with rfl | rfl | rfl | rfl
    · exact ⟨by decide, 'c', rfl, by decide⟩
    · exact ⟨by decide, 't', rfl, by decide⟩
    · exact ⟨by decide, 'm', rfl, by decide⟩
    · exact ⟨by decide, 'c', rfl, by decide⟩
  · simp only [patActividades, List.mem_cons, List.not_mem_nil, or_false] at hp
    rcases hp with rfl | rfl | rfl | rfl | rfl
    · exact ⟨by decide, 'a', rfl, by decide⟩
    · exact ⟨by decide, 'e', rfl, by decide⟩
    · exact ⟨by decide, 'd', rfl, by decide⟩
    · exact ⟨by decide, 's', rfl, by decide⟩
    · exact ⟨by decide, 'm', rfl, by decide⟩
  · simp only [patEvaluacion, List.mem_cons, List.not_mem_nil, or_false] at hp
    rcases hp with rfl | rfl | rfl | rfl | rfl
    · exact ⟨by decide, 'e', rfl, by decide⟩
    · exact ⟨by decide, 'a', rfl, by decide⟩
    · exact ⟨by decide, 'c', rfl, by decide⟩
    · exact ⟨by decide, 'i', rfl, by decide⟩
    · exact ⟨by decide, 'r', rfl, by decide⟩
  · simp only [patRecursos, List.mem_cons, List.not_mem_nil, or_false] at hp
    rcases hp with rfl | rfl | rfl | rfl
    · exact ⟨by decide, 'r', rfl, by decide⟩
    · exact ⟨by decide, 'm', rfl, by decide⟩
    · exact ⟨by decide, 'h', rfl, by decide⟩
    · exact ⟨by decide, 't', rfl, by decide⟩
  · simp only [patTiempo, List.mem_cons, List.not_mem_nil, or_false] at hp
    rcases hp with rfl | rfl | rfl | rfl
    · exact ⟨by decide, 't', rfl, by decide⟩
    · exact ⟨by decide, 'd', rfl, by decide⟩
    · exact ⟨by decide, 'c', rfl, by decide⟩
    · exact ⟨by decide, 'd', rfl, by decide⟩

/-! ## The span end positions -/

/-- Destructing a candidate next-section position: it lies at or after
`start + 50`, inside the text, and some other category's pattern matches
there. -/
theorem nextSections_mem_destruct {name : String} {tl : List Char} {start x : Nat}
    (hx : x ∈ nextSections name tl start) :
    start + 50 ≤ x ∧ x < tl.length ∧ otherCategoryMatchAt name tl x = true := by
  simp only [nextSections, List.mem_flatten, List.mem_map] at hx
  obtain ⟨l, ⟨op, hop, rfl⟩, hxl⟩ := hx
  by_cases hbeq : (op.1 == name) = true
  · rw [if_pos hbeq] at hxl
    cases hxl
  · rw [if_neg hbeq] at hxl
    simp only [List.mem_filterMap] at hxl
    obtain ⟨p, hp, hgp⟩ := hxl
    obtain ⟨hna, c, hc, _⟩ := sectionPatterns_props op hop p hp
    rw [reSearchPos_eq_firstMatchIdx false p hna, Option.map_eq_some'] at hgp
    obtain ⟨k, hfk, hxk⟩ := hgp
    subst hxk
    unfold firstMatchIdx at hfk
    have hPk := (leastFrom_some _ _ _ _ hfk).2.2.1
    rw [List.drop_drop] at hPk
    have hrun : RE.runM false p none (tl.drop (start + 50 + k)) ≠ [] := by
      simpa using hPk
    obtain ⟨hh, ht, hcons, _⟩ := startsWithLit_sound false p hc none _ hrun
    have hlt : start + 50 + k < tl.length := by
      have hne2 : tl.drop (start + 50 + k) ≠ [] := by
        rw [hcons]; exact List.cons_ne_nil _ _
      by_contra hcon
      exact hne2 (List.drop_eq_nil_iff.mpr (by omega))
    have hbeq2 : (op.1 == name) = false := by simpa using hbeq
    refine ⟨by omega, hlt, ?_⟩
    rw [otherCategoryMatchAt, List.any_eq_true]
    refine ⟨op, hop, ?_⟩
    rw [Bool.and_eq_true]
    refine ⟨by simp [bne, hbeq2], ?_⟩
    rw [List.any_eq_true]
    exact ⟨p, hp, hPk⟩

/-- Constructing a candidate next-section position from a match of another
category's pattern in the post-buffer suffix. -/
theorem nextSections_mem_intro {name : String} {tl : List Char} {start : Nat}
    {op : String × List RE} (hop : op ∈ sectionPatterns) (hbeq : (op.1 == name) = false)
    {p : RE} (hp : p ∈ op.2) (hna : RE.noAnchor p = true) {k : Nat}
    (hk : firstMatchIdx false p (tl.drop (start + 50)) = some k) :
    (start + 50 + k) ∈ nextSections name tl start := by
  simp only [nextSections, List.mem_flatten, List.mem_map]
  refine ⟨if op.1 == name then [] else op.2.filterMap (fun q =>
      (reSearchPos false q (tl.drop (start + 50))).map (fun j => start + 50 + j)),
    ⟨op, hop, rfl⟩, ?_⟩
  rw [if_neg (by simp [hbeq])]
  simp only [List.mem_filterMap]
  refine ⟨p, hp, ?_⟩
  rw [reSearchPos_eq_firstMatchIdx false p hna, hk]
  rfl

/-- The source's span end (minimum over the per-pattern first matches in the
suffix) is the claim's span end (the least position at or after `start + 50`
where some other category's pattern matches; end of text if none). -/
theorem sectionEnd_eq (text : List Char) (name : String) (start : Nat) :
    (minList? (nextSections name (lowerList text) start)).getD text.length =
      (leastFrom (fun q => otherCategoryMatchAt name (lowerList text) q) (start + 50)
        (text.length + 1 - (start + 50))).getD text.length := by
  have hlen : (lowerList text).length = text.length := List.length_map _ _
  cases hlf : leastFrom (fun q => otherCategoryMatchAt name (lowerList text) q) (start + 50)
      (text.length + 1 - (start + 50)) with
  | some p0 =>
    obtain ⟨hap0, hp0lt, hQ, hmin⟩ := leastFrom_some _ _ _ _ hlf
    rw [otherCategoryMatchAt, List.any_eq_true] at hQ
    obtain ⟨op, hop, hopq⟩ := hQ
    rw [Bool.and_eq_true, List.any_eq_true] at hopq
    obtain ⟨hne, p, hp, hrun⟩ := hopq
    obtain ⟨hna, c, hc, _⟩ := sectionPatterns_props op hop p hp
    have hp0le : p0 ≤ text.length := by omega
    have hsfx : ((lowerList text).drop (start + 50)).drop (p0 - (start + 50)) =
        (lowerList text).drop p0 := by
      rw [List.drop_drop]
      congr 1
      omega
    have hmatch : (!(RE.runM false p none
        (((lowerList text).drop (start + 50)).drop (p0 - (start + 50)))).isEmpty) = true := by
      rw [hsfx]; exact hrun
    obtain ⟨k, hk, hkle⟩ := leastFrom_le
      (fun i => !(RE.runM false p none (((lowerList text).drop (start + 50)).drop i)).isEmpty)
      (((lowerList text).drop (start + 50)).length + 1)
      0 (p0 - (start + 50)) (Nat.zero_le _) (by rw [List.length_drop, hlen]; omega) hmatch
    have hfmi : firstMatchIdx false p ((lowerList text).drop (start + 50)) = some k := hk
    have hbeq : (op.1 == name) = false := by simpa [bne] using hne
    have hinmem := nextSections_mem_intro hop hbeq hp hna hfmi
    have hlb : ∀ x ∈ nextSections name (lowerList text) start, p0 ≤ x := by
      intro x hx
      obtain ⟨hx1, hx2, hx3⟩ := nextSections_mem_destruct hx
      by_contra hcon
      have hfalse := hmin x hx1 (by omega)
      rw [hx3] at hfalse
      cases hfalse
    rcases minList?_spec (nextSections name (lowerList text) start) with
      ⟨hnil, _⟩ | ⟨m, hm1, hm2, hm3⟩
    · rw [hnil] at hinmem; cases hinmem
    · rw [hm1]
      simp only [Option.getD_some]
      have h1 : m ≤ start + 50 + k := hm3 _ hinmem
      have h2 : p0 ≤ m := hlb m hm2
      omega
  | none =>
    have hnone := leastFrom_none _ _ _ hlf
    have hempty : nextSections name (lowerList text) start = [] := by
      rcases hcase : nextSections name (lowerList text) start with _ | ⟨x, xs⟩
      · rfl
      · exfalso
        have hx : x ∈ nextSections name (lowerList text) start := by
          rw [hcase]; exact List.mem_cons_self _ _
        obtain ⟨hx1, hx2, hx3⟩ := nextSections_mem_destruct hx
        rw [hlen] at hx2
        have hfalse := hnone x hx1 (by omega)
        rw [hx3] at hfalse
        cases hfalse
    rw [hempty]
    rfl

/-- Per catalog entry, the source's section record equals the amended claim's
span description. -/
theorem sectionEntry_eq (text : List Char) (np : String × List RE)
    (hnp : np ∈ sectionPatterns) :
    (match tryPatternsStart np.2 (lowerList text) with
      | none => none
      | some start =>
        if (stripChars (sliceList text start
            ((minList? (nextSections np.1 (lowerList text) start)).getD text.length))).isEmpty
        then none
        else some (np.1, (stripChars (sliceList text start
            ((minList? (nextSections np.1 (lowerList text) start)).getD
              text.length))).take 1000)) =
      (specSectionSpan text np.1 np.2).map (fun c => (np.1, c)) := by
  have hpats : ∀ p ∈ np.2, RE.noAnchor p = true :=
    fun p hp => (sectionPatterns_props np hnp p hp).1
  rw [tryPatternsStart_eq (lowerList text) np.2 hpats]
  unfold specSectionSpan
  cases hfs : np.2.findSome? (fun p => firstMatchIdx false p (lowerList text)) with
  | none => rfl
  | some start =>
    simp only [Option.map_some']
    obtain ⟨p, hpmem, hpfirst⟩ := findSome?_mem hfs
    obtain ⟨hna, c, hc, hcs⟩ := sectionPatterns_props np hnp p hpmem
    unfold firstMatchIdx at hpfirst
    have hPstart := (leastFrom_some _ _ _ _ hpfirst).2.2.1
    have hrun : RE.runM false p none ((lowerList text).drop start) ≠ [] := by
      simpa using hPstart
    obtain ⟨hch, hct, hcons, hcm⟩ := startsWithLit_sound false p hc none _ hrun
    have hhc : hch = c := by simpa [charMatches] using hcm
    have hmapdrop : (lowerList text).drop start = lowerList (text.drop start) :=
      (List.map_drop lowerChar text start).symm
    cases hdt : text.drop start with
    | nil =>
      exfalso
      rw [hmapdrop, hdt] at hcons
      simp [lowerList] at hcons
    | cons h2 t2 =>
      have hlow : lowerChar h2 = c := by
        rw [hmapdrop, hdt] at hcons
        simp only [lowerList, List.map_cons, List.cons.injEq] at hcons
        exact hcons.1.trans hhc
      have hsp2 : isSpaceChar h2 = false := by
        by_contra hsp
        have hsp' : isSpaceChar h2 = true := by simpa using hsp
        have hfix := isSpace_lower_self hsp'
        rw [hfix] at hlow
        rw [hlow, hcs] at hsp'
        cases hsp'
      have hslt : start < text.length := by
        have hne2 : text.drop start ≠ [] := by rw [hdt]; exact List.cons_ne_nil _ _
        by_contra hcon
        exact hne2 (List.drop_eq_nil_iff.mpr (by omega))
      rw [sectionEnd_eq text np.1 start]
      have hegt : start < (leastFrom (fun q => otherCategoryMatchAt np.1 (lowerList text) q)
          (start + 50) (text.length + 1 - (start + 50))).getD text.length := by
        cases hE : leastFrom (fun q => otherCategoryMatchAt np.1 (lowerList text) q)
            (start + 50) (text.length + 1 - (start + 50)) with
        | none => simpa using hslt
        | some q =>
          have hq1 := (leastFrom_some _ _ _ _ hE).1
          simp only [Option.getD_some]
          omega
      have hslice : sliceList text start
          ((leastFrom (fun q => otherCategoryMatchAt np.1 (lowerList text) q) (start + 50)
            (text.length + 1 - (start + 50))).getD text.length) =
          h2 :: (t2.take ((leastFrom (fun q => otherCategoryMatchAt np.1 (lowerList text) q)
            (start + 50) (text.length + 1 - (start + 50))).getD text.length - start - 1)) := by
        unfold sliceList
        rw [hdt]
        have hst : (leastFrom (fun q => otherCategoryMatchAt np.1 (lowerList text) q)
            (start + 50) (text.length + 1 - (start + 50))).getD text.length - start =
            ((leastFrom (fun q => otherCategoryMatchAt np.1 (lowerList text) q) (start + 50)
              (text.length + 1 - (start + 50))).getD text.length - start - 1) + 1 := by
          omega
        rw [hst]
        rfl
      have hnonempty : ¬((stripChars (sliceList text start
          ((leastFrom (fun q => otherCategoryMatchAt np.1 (lowerList text) q) (start + 50)
            (text.length + 1 - (start + 50))).getD text.length))).isEmpty = true) := by
        rw [hslice]
        unfold stripChars
        rw [List.dropWhile_cons_of_neg (by simp [hsp2])]
        simp only [dropTrailing]
        rw [if_neg (by simp [hsp2])]
        simp
      rw [if_neg hnonempty]

/-- C2, amended: for every input text the source's section map is, per
category in catalog order, exactly the claim's span description corrected by
one step — the sliced span is stripped of surrounding whitespace before the
1000-character truncation.  (In particular a span is recorded exactly when
some heading pattern of the category matches the lowercased text; the
stripped span is provably never empty, so the source's emptiness guard never
drops a matched category.) -/
theorem c2_section_locator_amended (text : List Char) :
    extract_sections text =
      sectionPatterns.filterMap (fun np =>
        (specSectionSpan text np.1 np.2).map (fun c => (np.1, c))) := by
  unfold extract_sections
  exact filterMapCongrMem (fun np hnp => sectionEntry_eq text np hnp)

end RIC
